import Mathlib

/-
Verification of the availability computation engine of the e3-connect
booking flow.  The definitions below are shallow embeddings of the
TypeScript source; instants are modelled as integers counting
milliseconds (the value of Date.getTime()), and a calendar date is
identified with the instant at which that day starts.
-/

namespace E3Connect

/-- A busy interval as delivered by the busy-schedule provider
(src: interface BusySlot, AvailabilityStep). The interval is half-open. -/
structure BusySlot where
  start : Int
  «end» : Int
deriving DecidableEq, Repr

/-- Role of an attendee inside an emitted slot
(src: the literal type tag used in slot attendees). -/
inductive AttendeeType where
  | required
  | optional
deriving DecidableEq, Repr

/-- Per-attendee availability annotation carried by an emitted slot
(src: the attendee objects pushed in generateSlotsForDate; the UI colour
field is presentation only and is omitted). -/
structure Attendee where
  name : String
  email : String
  type : AttendeeType
  available : Bool
deriving DecidableEq, Repr

/-- A connected team member as used by the slot generator: only the
name and email fields feed the computation. -/
structure Member where
  name : String
  email : String
deriving DecidableEq, Repr

/-- An emitted candidate slot (src: interface TimeSlot). -/
structure TimeSlot where
  start : Int
  «end» : Int
  attendees : List Attendee
deriving DecidableEq, Repr

/-- Scheduling window settings (src: interface SchedulingWindowSettings). -/
structure SchedulingWindowSettings where
  min_notice_hours : Nat
  max_advance_days : Nat
  availability_type : String
deriving DecidableEq, Repr

/-- Result of the working-hours resolver for one date
(src: getWorkingHoursForDate, useBusinessHours): two possibly-null
"HH:MM" times-of-day, modelled as optional (hour, minute) pairs. -/
structure WorkingHours where
  start : Option (Nat × Nat)
  «end» : Option (Nat × Nat)
deriving DecidableEq, Repr

/-- The per-interval overlap test used by the conflict check
(src: the lambda inside memberBusySlots.some:
currentTime < busyEnd && slotEnd > busyStart). -/
def overlapsB (currentTime slotEnd : Int) (b : BusySlot) : Bool :=
  decide (currentTime < b.«end») && decide (slotEnd > b.start)

/-- Conflict test of a candidate interval against an attendee's busy
list (src: memberBusySlots.some(busySlot => ...)). -/
def hasConflict (currentTime slotEnd : Int) (busySlots : List BusySlot) : Bool :=
  busySlots.any (overlapsB currentTime slotEnd)

/-- The candidate record pushed for a surviving slot: required members
annotated available := true, optional members annotated by the
per-member conflict test (src: the slots.push argument in
generateSlotsForDate and calculateAvailableSlots, identical in both). -/
def mkCandidate (required optional : List Member) (busy : String → List BusySlot)
    (currentTime slotEnd : Int) : TimeSlot :=
  let optionalMembersAvailable :=
    (optional.filter fun m => ! hasConflict currentTime slotEnd (busy m.email)).map
      (fun m => m.email)
  { start := currentTime
    «end» := slotEnd
    attendees :=
      required.map (fun m =>
        { name := m.name, email := m.email, type := AttendeeType.required, available := true })
      ++ optional.map (fun m =>
        { name := m.name, email := m.email, type := AttendeeType.optional,
          available := optionalMembersAvailable.contains m.email }) }

/-- The while loop of generateSlotsForDate (src/unnamed/part_004):
while (currentTime < workingEnd), break when slotEnd > workingEnd,
push when all required members are conflict-free, step by the
duration.  The loop is written on explicit fuel; the caller passes
fuel that provably suffices (see slotLoop_fuel_agree). -/
def slotLoop (required optional : List Member) (busy : String → List BusySlot)
    (d0 : Nat) (workingEnd : Int) : Nat → Int → List TimeSlot
  | 0, _ => []
  | fuel + 1, currentTime =>
    if currentTime < workingEnd then
      let slotEnd := currentTime + (d0 : Int) * 60000
      if slotEnd > workingEnd then []
      else
        let allRequiredAvailable :=
          required.all fun m => ! hasConflict currentTime slotEnd (busy m.email)
        let rest := slotLoop required optional busy d0 workingEnd fuel
          (currentTime + (d0 : Int) * 60000)
        if allRequiredAvailable then
          mkCandidate required optional busy currentTime slotEnd :: rest
        else rest
    else []

/-- The while loop of calculateAvailableSlots
(src/src/components/steps/AvailabilityStep.tsx): no break; the push is
guarded by allRequiredAvailable && slotEnd <= workingEnd. -/
def calcLoop (required optional : List Member) (busy : String → List BusySlot)
    (d0 : Nat) (workingEnd : Int) : Nat → Int → List TimeSlot
  | 0, _ => []
  | fuel + 1, currentTime =>
    if currentTime < workingEnd then
      let slotEnd := currentTime + (d0 : Int) * 60000
      let allRequiredAvailable :=
        required.all fun m => ! hasConflict currentTime slotEnd (busy m.email)
      let rest := calcLoop required optional busy d0 workingEnd fuel
        (currentTime + (d0 : Int) * 60000)
      if allRequiredAvailable && decide (slotEnd ≤ workingEnd) then
        mkCandidate required optional busy currentTime slotEnd :: rest
      else rest
    else []

/-- Effective start of the candidate cursor (src: the assignment
let effectiveStart = workingStart; if same-day && effectiveStart <
minDateTime then effectiveStart = minDateTime). -/
def effectiveStart (isToday : Bool) (workingStart minDateTime : Int) : Int :=
  if isToday && decide (workingStart < minDateTime) then minDateTime else workingStart

/-- Shallow embedding of generateSlotsForDate (src/unnamed/part_004,
lines 277-360).  startOfDay is the instant the requested day begins,
now the current instant, nowDayStart the instant the current day
begins (the toDateString comparison holds iff startOfDay = nowDayStart). -/
def generateSlotsForDate (schedulingSettings : Option SchedulingWindowSettings)
    (duration : Nat) (getWorkingHoursForDate : Int → WorkingHours)
    (required optional : List Member) (monthlyBusySchedule : String → List BusySlot)
    (now nowDayStart startOfDay : Int) : List TimeSlot :=
  match schedulingSettings with
  | none => []
  | some s =>
    let d0 := if duration = 0 then 60 else duration
    let wh := getWorkingHoursForDate startOfDay
    match wh.start, wh.«end» with
    | some (startHour, startMinute), some (endHour, endMinute) =>
      let minDateTime := now + (s.min_notice_hours : Int) * 3600000
      let workingStart := startOfDay + ((startHour : Int) * 3600000 + (startMinute : Int) * 60000)
      let workingEnd := startOfDay + ((endHour : Int) * 3600000 + (endMinute : Int) * 60000)
      let eStart := effectiveStart (decide (startOfDay = nowDayStart)) workingStart minDateTime
      slotLoop required optional monthlyBusySchedule d0 workingEnd
        ((workingEnd - eStart).toNat + 1) eStart
    | _, _ => []

/-- Shallow embedding of calculateAvailableSlots
(src/src/components/steps/AvailabilityStep.tsx, lines 259-337).  The
surrounding effect guarantees schedulingSettings is present, so it is
taken as a plain value here. -/
def calculateAvailableSlots (schedulingSettings : SchedulingWindowSettings)
    (duration : Nat) (getWorkingHoursForDate : Int → WorkingHours)
    (required optional : List Member) (monthlyBusySchedule : String → List BusySlot)
    (now nowDayStart selectedDate : Int) : List TimeSlot :=
  let d0 := if duration = 0 then 60 else duration
  let wh := getWorkingHoursForDate selectedDate
  match wh.start, wh.«end» with
  | some (startHour, startMinute), some (endHour, endMinute) =>
    let minDateTime := now + (schedulingSettings.min_notice_hours : Int) * 3600000
    let workingStart := selectedDate + ((startHour : Int) * 3600000 + (startMinute : Int) * 60000)
    let workingEnd := selectedDate + ((endHour : Int) * 3600000 + (endMinute : Int) * 60000)
    let eStart := effectiveStart (decide (selectedDate = nowDayStart)) workingStart minDateTime
    calcLoop required optional monthlyBusySchedule d0 workingEnd
      ((workingEnd - eStart).toNat + 1) eStart
  | _, _ => []

/-- Insertion into the set of available attendee ids, JS Set.add
semantics: append if absent, keep insertion order. -/
def addToSet (acc : List String) (e : String) : List String :=
  if acc.contains e then acc else acc ++ [e]

/-- Union of the available attendee emails across a list of slots
(src: the slots.forEach / attendees.forEach body of
dailyAvailabilityMap in src/unnamed/part_004). -/
def unionAvailable (slots : List TimeSlot) : List String :=
  slots.foldl
    (fun acc slot =>
      slot.attendees.foldl
        (fun acc2 att => if att.available then addToSet acc2 att.email else acc2) acc)
    []

/-- One iteration of the dailyAvailabilityMap loop over calendar days
(src/unnamed/part_004, lines 367-382): only days that are today or in
the future are processed, and a day is written into the map only when
its available set is nonempty.  The map is modelled as a total
function with the JS lookup default (empty set). -/
def digestStep (g : Int → List TimeSlot) (now nowDayStart : Int)
    (map : Int → List String) (date : Int) : Int → List String :=
  if date = nowDayStart ∨ date > now then
    let availableSet := unionAvailable (g date)
    if availableSet.isEmpty then map
    else fun x => if x = date then availableSet else map x
  else map

/-- Shallow embedding of dailyAvailabilityMap (src/unnamed/part_004,
lines 363-384): empty when no required member is selected or the
scheduling settings are not loaded, otherwise a batch application of
generateSlotsForDate over the visible calendar days. -/
def dailyAvailabilityMap (schedulingSettings : Option SchedulingWindowSettings)
    (duration : Nat) (getWorkingHoursForDate : Int → WorkingHours)
    (required optional : List Member) (monthlyBusySchedule : String → List BusySlot)
    (now nowDayStart : Int) (calendarDays : List Int) : Int → List String :=
  if required.isEmpty || schedulingSettings.isNone then fun _ => []
  else
    calendarDays.foldl
      (digestStep
        (fun date => generateSlotsForDate schedulingSettings duration getWorkingHoursForDate
          required optional monthlyBusySchedule now nowDayStart date)
        now nowDayStart)
      (fun _ => [])

/-- JS object access monthlyBusySchedule[email] || [] over the fetched
entries. -/
def busyLookup (entries : List (String × List BusySlot)) (email : String) : List BusySlot :=
  ((entries.find? fun p => p.1 = email).map fun p => p.2).getD []

/-- Shallow embedding of the loadMonthlyAvailability effect
(src: AvailabilityStep, both versions): the fetch either succeeds with
per-email busy calendars or fails; on failure the busy schedule is set
to the empty map and the error state — reset to null at the start and
never written in the catch block — stays none. -/
def loadMonthlyAvailability (selectedEmails : List String)
    (fetchResult : Except String (List (String × List BusySlot))) :
    List (String × List BusySlot) × Option String :=
  if selectedEmails.isEmpty then ([], none)
  else
    match fetchResult with
    | Except.ok calendars => (calendars, none)
    | Except.error _ => ([], none)

/-- The effect computing the selected day's slot list
(src/unnamed/part_004, lines 387-394): cleared when no date is
selected or the busy map has no keys, otherwise generateSlotsForDate. -/
def availableSlotsEffect (selectedDate : Option Int)
    (busyEntries : List (String × List BusySlot)) (g : Int → List TimeSlot) : List TimeSlot :=
  match selectedDate with
  | none => []
  | some d => if busyEntries.isEmpty then [] else g d

/-- The three roster zones a member can live in. -/
inductive Zone where
  | required
  | optional
  | pool
deriving DecidableEq, Repr

/-- The two clearable sections (src: clearSection argument type). -/
inductive SectionKind where
  | required
  | optional
deriving DecidableEq, Repr

/-- The roster state held in appState: the two explicit id sets; the
pool is implicit (every connected member in neither set). -/
structure RosterState where
  requiredMembers : Finset String
  optionalMembers : Finset String
deriving DecidableEq

/-- The zone a member id currently lives in; drag chips are rendered
from exactly this classification, so the from argument of handleDrop
always equals it. -/
def classify (st : RosterState) (id : String) : Zone :=
  if id ∈ st.requiredMembers then Zone.required
  else if id ∈ st.optionalMembers then Zone.optional
  else Zone.pool

/-- Shallow embedding of handleDrop (src/unnamed/part_004, lines
406-423): no-op when source and target zone agree, otherwise delete
from the source set (when explicit) and insert into the target set
(when explicit). -/
def handleDrop (st : RosterState) (id : String) (toZone : Zone) : RosterState :=
  let fromZone := classify st id
  if fromZone = toZone then st
  else
    let newRequired :=
      if fromZone = Zone.required then st.requiredMembers.erase id else st.requiredMembers
    let newOptional :=
      if fromZone = Zone.optional then st.optionalMembers.erase id else st.optionalMembers
    let newRequired2 := if toZone = Zone.required then insert id newRequired else newRequired
    let newOptional2 := if toZone = Zone.optional then insert id newOptional else newOptional
    { requiredMembers := newRequired2, optionalMembers := newOptional2 }

/-- Shallow embedding of removeMember: delete the id from both sets. -/
def removeMember (st : RosterState) (id : String) : RosterState :=
  { requiredMembers := st.requiredMembers.erase id
    optionalMembers := st.optionalMembers.erase id }

/-- Shallow embedding of clearSection: empty exactly the named set. -/
def clearSection (st : RosterState) (section' : SectionKind) : RosterState :=
  match section' with
  | SectionKind.required => { requiredMembers := ∅, optionalMembers := st.optionalMembers }
  | SectionKind.optional => { requiredMembers := st.requiredMembers, optionalMembers := ∅ }

/-- Shallow embedding of handleSelectAll (src/unnamed/part_002): every
visible member id becomes required, the optional set is replaced by a
fresh empty set. -/
def handleSelectAll (visible : List String) : RosterState :=
  { requiredMembers := visible.toFinset, optionalMembers := ∅ }

/-- Shallow embedding of the URL-seeded initialization (src:
AvailabilityStep initialization effect): required ids are inserted
first, an optional id is inserted only when not already required. -/
def seedFromURL (requiredIds optionalIds : List String) : RosterState :=
  let newRequired := requiredIds.foldl (fun s i => insert i s) (∅ : Finset String)
  let newOptional := optionalIds.foldl
    (fun s i => if i ∈ newRequired then s else insert i s) (∅ : Finset String)
  { requiredMembers := newRequired, optionalMembers := newOptional }

/-- The roster operations reachable from user interaction. -/
inductive RosterOp where
  | drop (id : String) (toZone : Zone)
  | remove (id : String)
  | clear (section' : SectionKind)
  | selectAll (visible : List String)
  | seed (requiredIds optionalIds : List String)

/-- Apply one roster operation. -/
def applyOp (st : RosterState) : RosterOp → RosterState
  | RosterOp.drop id toZone => handleDrop st id toZone
  | RosterOp.remove id => removeMember st id
  | RosterOp.clear s => clearSection st s
  | RosterOp.selectAll visible => handleSelectAll visible
  | RosterOp.seed reqIds optIds => seedFromURL reqIds optIds

/-- Apply a sequence of roster operations, oldest first. -/
def applyOps (st : RosterState) (ops : List RosterOp) : RosterState :=
  ops.foldl applyOp st

/-- Disjointness of the two explicit roster sets. -/
def RosterDisjoint (st : RosterState) : Prop :=
  st.requiredMembers ∩ st.optionalMembers = ∅

instance (st : RosterState) : Decidable (RosterDisjoint st) := by
  unfold RosterDisjoint; infer_instance

/-- The implicit pool (src: poolMembers = connectedMembers.filter(m =>
!allSelectedIds.has(m.id))). -/
def poolOf (connected : List String) (st : RosterState) : List String :=
  connected.filter fun id =>
    ! (decide (id ∈ st.requiredMembers) || decide (id ∈ st.optionalMembers))

/-- Working-hours resolver of the worked examples: every day 09:00-18:00. -/
def officeHours : Int → WorkingHours := fun _ =>
  { start := some (9, 0), «end» := some (12, 0) }

/-- Working-hours resolver 09:00-18:00 for the same-day notice scenario. -/
def fullOfficeHours : Int → WorkingHours := fun _ =>
  { start := some (9, 0), «end» := some (18, 0) }

/-- Resolver of a non-working day. -/
def closedDay : Int → WorkingHours := fun _ => { start := none, «end» := none }

/-- Busy map with no entries. -/
def noBusy : String → List BusySlot := fun _ => []

/-- Concrete members for the worked examples. -/
def ana : Member := { name := "Ana", email := "ana@e3.com" }

/-- Second concrete member for the worked examples. -/
def bob : Member := { name := "Bob", email := "bob@e3.com" }

/-- Busy map where bob is busy for the whole day. -/
def busyBob : String → List BusySlot := fun e =>
  if e = "bob@e3.com" then [{ start := 0, «end» := 86400000 }] else []

/-- The default scheduling settings (src: the fallback record). -/
def defaultSettings : SchedulingWindowSettings :=
  { min_notice_hours := 4, max_advance_days := 60, availability_type := "available_now" }

/-- Any two fuels at least (workingEnd - t).toNat + 1 give the same
result: the while loop reaches its exit after at most that many
iterations, because the cursor strictly increases by the positive step. -/
theorem slotLoop_fuel_agree (required optional : List Member) (busy : String → List BusySlot)
    (d0 : Nat) (workingEnd : Int) (hd0 : 1 ≤ d0) :
    ∀ fuel1 fuel2 t, (workingEnd - t).toNat + 1 ≤ fuel1 → (workingEnd - t).toNat + 1 ≤ fuel2 →
      slotLoop required optional busy d0 workingEnd fuel1 t
        = slotLoop required optional busy d0 workingEnd fuel2 t := by
  intro fuel1
  induction fuel1 with
  | zero => intro fuel2 t h1 _; omega
  | succ n ih =>
    intro fuel2 t h1 h2
    obtain ⟨m, rfl⟩ : ∃ m, fuel2 = m + 1 := ⟨fuel2 - 1, by omega⟩
    simp only [slotLoop]
    by_cases hlt : t < workingEnd
    · simp only [if_pos hlt]
      by_cases hbr : t + (d0 : Int) * 60000 > workingEnd
      · simp only [if_pos hbr]
      · simp only [if_neg hbr]
        have hrec := ih m (t + (d0 : Int) * 60000) (by omega) (by omega)
        rw [hrec]
    · simp only [if_neg hlt]

/-- Once the candidate end passes the window end it stays past it, so
the no-break loop of calculateAvailableSlots emits nothing further. -/
theorem calcLoop_dead (required optional : List Member) (busy : String → List BusySlot)
    (d0 : Nat) (workingEnd : Int) :
    ∀ fuel t, workingEnd < t + (d0 : Int) * 60000 →
      calcLoop required optional busy d0 workingEnd fuel t = [] := by
  intro fuel
  induction fuel with
  | zero => intro t _; rfl
  | succ n ih =>
    intro t h
    simp only [calcLoop]
    by_cases hlt : t < workingEnd
    · simp only [if_pos hlt]
      have hc : decide (t + (d0 : Int) * 60000 ≤ workingEnd) = false := by
        simp; omega
      rw [hc, Bool.and_false, if_neg (by simp)]
      exact ih (t + (d0 : Int) * 60000) (by omega)
    · simp only [if_neg hlt]

/-- The two source loops emit the same list of slots: the break of
generateSlotsForDate only skips iterations whose push guard is false
anyway. -/
theorem calcLoop_eq_slotLoop (required optional : List Member) (busy : String → List BusySlot)
    (d0 : Nat) (workingEnd : Int) :
    ∀ fuel t, calcLoop required optional busy d0 workingEnd fuel t
      = slotLoop required optional busy d0 workingEnd fuel t := by
  intro fuel
  induction fuel with
  | zero => intro t; rfl
  | succ n ih =>
    intro t
    simp only [calcLoop, slotLoop]
    by_cases hlt : t < workingEnd
    · simp only [if_pos hlt]
      by_cases hbr : t + (d0 : Int) * 60000 > workingEnd
      · simp only [if_pos hbr]
        have hc : decide (t + (d0 : Int) * 60000 ≤ workingEnd) = false := by
          simp; omega
        rw [hc, Bool.and_false, if_neg (by simp)]
        exact calcLoop_dead required optional busy d0 workingEnd n _ (by omega)
      · simp only [if_neg hbr]
        have hc : decide (t + (d0 : Int) * 60000 ≤ workingEnd) = true := by
          simp; omega
        rw [hc, Bool.and_true, ih]
    · simp only [if_neg hlt]

/-- The slot generators of the two AvailabilityStep revisions agree on
every input. -/
theorem calculateAvailableSlots_eq_generateSlotsForDate
    (s : SchedulingWindowSettings) (duration : Nat) (ghw : Int → WorkingHours)
    (required optional : List Member) (busy : String → List BusySlot)
    (now nds date : Int) :
    calculateAvailableSlots s duration ghw required optional busy now nds date
      = generateSlotsForDate (some s) duration ghw required optional busy now nds date := by
  simp only [calculateAvailableSlots, generateSlotsForDate]
  cases hs : (ghw date).start <;> cases he : (ghw date).«end» <;>
    simp [calcLoop_eq_slotLoop]

/-- Claim C1: the conflict test is a strict open-interval overlap:
a candidate conflicts with the busy list iff some busy interval b has
b.start < slotEnd and currentTime < b.end; an interval that merely
touches a boundary (b.end = slot start or b.start = slot end) never
overlaps and never changes the conflict verdict, so it never excludes
the slot. -/
theorem conflict_strict_open_overlap (currentTime slotEnd : Int) (busy : List BusySlot) :
    (hasConflict currentTime slotEnd busy = true ↔
      ∃ b ∈ busy, b.start < slotEnd ∧ currentTime < b.«end») ∧
    (∀ b : BusySlot, b.«end» = currentTime ∨ b.start = slotEnd →
      overlapsB currentTime slotEnd b = false) ∧
    (∀ b : BusySlot, b.«end» = currentTime ∨ b.start = slotEnd →
      hasConflict currentTime slotEnd (b :: busy) = hasConflict currentTime slotEnd busy) := by
  have hbdry : ∀ b : BusySlot, b.«end» = currentTime ∨ b.start = slotEnd →
      overlapsB currentTime slotEnd b = false := by
    rintro b (h | h) <;> simp [overlapsB] <;> omega
  refine ⟨?_, hbdry, ?_⟩
  · simp only [hasConflict, List.any_eq_true, overlapsB, Bool.and_eq_true, decide_eq_true_eq]
    constructor
    · rintro ⟨b, hb, h1, h2⟩; exact ⟨b, hb, by omega, by omega⟩
    · rintro ⟨b, hb, h1, h2⟩; exact ⟨b, hb, by omega, by omega⟩
  · intro b h
    simp [hasConflict, hbdry b h]

/-- Concrete witness for C1: an interval ending exactly at the
candidate start leaves the conflict verdict unchanged. -/
theorem conflict_strict_open_overlap_witness :
    hasConflict 600 660 ({ start := 550, «end» := 600 } :: []) = hasConflict 600 660 [] :=
  (conflict_strict_open_overlap 600 660 []).2.2 { start := 550, «end» := 600 } (Or.inl rfl)

/-- Claim C4: the minimum-notice cutoff applies exactly on the current
calendar day — effectiveStart is max(workingStart, now + notice) when
the flag is set and workingStart otherwise — and in the same-day
scenario (now 10:00, 4h notice, hours 09:00-18:00, duration 60) the
first generated slot starts at 14:00. -/
theorem min_notice_same_day_only :
    (∀ workingStart minDateTime : Int,
      effectiveStart true workingStart minDateTime = max workingStart minDateTime) ∧
    (∀ workingStart minDateTime : Int,
      effectiveStart false workingStart minDateTime = workingStart) ∧
    ((generateSlotsForDate (some defaultSettings) 60 fullOfficeHours [ana] [] noBusy
        36000000 0 0).head?.map fun s => s.start) = some 50400000 := by
  refine ⟨?_, ?_, ?_⟩
  · intro ws mdt
    by_cases h : ws < mdt
    · simp [effectiveStart, h]
      omega
    · simp [effectiveStart, h]
      omega
  · intro ws mdt
    simp [effectiveStart]
  · rfl

/-- Claim C9: neither the slot generator nor the monthly digest reads
max_advance_days — changing it while keeping everything else fixed
yields identical output, so no code path rejects dates beyond the
horizon. -/
theorem max_advance_days_unused (s : SchedulingWindowSettings) (k duration : Nat)
    (ghw : Int → WorkingHours) (required optional : List Member)
    (busy : String → List BusySlot) (now nds date : Int) (days : List Int) (d : Int) :
    generateSlotsForDate (some { s with max_advance_days := k }) duration ghw
        required optional busy now nds date
      = generateSlotsForDate (some s) duration ghw required optional busy now nds date ∧
    dailyAvailabilityMap (some { s with max_advance_days := k }) duration ghw
        required optional busy now nds days d
      = dailyAvailabilityMap (some s) duration ghw required optional busy now nds days d :=
  ⟨rfl, rfl⟩

/-- Every slot the loop emits ends one step after it starts, stays
inside the window, passes the unanimous required-member conflict check,
and is exactly the pushed candidate record. -/
theorem slotLoop_mem (required optional : List Member) (busy : String → List BusySlot)
    (d0 : Nat) (workingEnd : Int) :
    ∀ fuel t slot, slot ∈ slotLoop required optional busy d0 workingEnd fuel t →
      slot.«end» = slot.start + (d0 : Int) * 60000 ∧ slot.«end» ≤ workingEnd ∧
      (required.all fun m => ! hasConflict slot.start slot.«end» (busy m.email)) = true ∧
      slot = mkCandidate required optional busy slot.start slot.«end» := by
  intro fuel
  induction fuel with
  | zero => intro t slot h; simp [slotLoop] at h
  | succ n ih =>
    intro t slot h
    simp only [slotLoop] at h
    by_cases hlt : t < workingEnd
    · rw [if_pos hlt] at h
      by_cases hbr : t + (d0 : Int) * 60000 > workingEnd
      · rw [if_pos hbr] at h; simp at h
      · rw [if_neg hbr] at h
        by_cases hall :
            (required.all fun m => ! hasConflict t (t + (d0 : Int) * 60000) (busy m.email)) = true
        · rw [if_pos hall] at h
          rcases List.mem_cons.mp h with rfl | hmem
          · refine ⟨rfl, by simpa [mkCandidate] using (by omega : t + (d0 : Int) * 60000 ≤ workingEnd), ?_, rfl⟩
            simpa [mkCandidate] using hall
          · exact ih _ slot hmem
        · rw [if_neg hall] at h
          exact ih _ slot h
    · rw [if_neg hlt] at h; simp at h

/-- The pairs (start, end) emitted by the loop do not depend on the
optional member list. -/
theorem slotLoop_map_pair (required optional optional2 : List Member)
    (busy : String → List BusySlot) (d0 : Nat) (workingEnd : Int) :
    ∀ fuel t,
      (slotLoop required optional busy d0 workingEnd fuel t).map (fun s => (s.start, s.«end»))
        = (slotLoop required optional2 busy d0 workingEnd fuel t).map
            (fun s => (s.start, s.«end»)) := by
  intro fuel
  induction fuel with
  | zero => intro t; rfl
  | succ n ih =>
    intro t
    simp only [slotLoop]
    by_cases hlt : t < workingEnd
    · rw [if_pos hlt, if_pos hlt]
      by_cases hbr : t + (d0 : Int) * 60000 > workingEnd
      · rw [if_pos hbr, if_pos hbr]
      · rw [if_neg hbr, if_neg hbr]
        by_cases hall :
            (required.all fun m => ! hasConflict t (t + (d0 : Int) * 60000) (busy m.email)) = true
        · rw [if_pos hall, if_pos hall]
          simp [List.map_cons, ih, mkCandidate]
        · rw [if_neg hall, if_neg hall]
          exact ih _
    · rw [if_neg hlt, if_neg hlt]

/-- The recorded availability of an email among the filtered optional
members equals the negated conflict test, whenever that email does
belong to some optional member. -/
theorem contains_filter_map_email (optional : List Member) (p : String → Bool) (e : String)
    (he : ∃ m ∈ optional, m.email = e) :
    ((optional.filter fun m => p m.email).map fun m => m.email).contains e = p e := by
  cases hp : p e
  · rw [Bool.eq_false_iff]
    intro hc
    obtain ⟨m, hm, hme⟩ := List.mem_map.mp (List.elem_iff.mp hc)
    have := (List.mem_filter.mp hm).2
    rw [hme, hp] at this
    exact Bool.false_ne_true this
  · obtain ⟨m, hm, hme⟩ := he
    refine List.elem_iff.mpr (List.mem_map.mpr ⟨m, List.mem_filter.mpr ⟨hm, ?_⟩, hme⟩)
    rw [hme, hp]

/-- Claim C2: a candidate is emitted iff every required attendee is
conflict-free (their busy lists are re-checked on every emitted slot);
the emitted (start, end) pairs are identical for any two optional
lists, so optional attendees never affect admission; and each attendee
annotation carries available = true for required members and the
per-attendee negated conflict test for optional members. -/
theorem required_unanimous_optional_annotate (s : SchedulingWindowSettings) (duration : Nat)
    (ghw : Int → WorkingHours) (required optional optional2 : List Member)
    (busy : String → List BusySlot) (now nds date : Int) :
    (∀ slot ∈ generateSlotsForDate (some s) duration ghw required optional busy now nds date,
      ∀ m ∈ required, hasConflict slot.start slot.«end» (busy m.email) = false) ∧
    ((generateSlotsForDate (some s) duration ghw required optional busy now nds date).map
        fun slot => (slot.start, slot.«end»))
      = ((generateSlotsForDate (some s) duration ghw required optional2 busy now nds date).map
        fun slot => (slot.start, slot.«end»)) ∧
    (∀ slot ∈ generateSlotsForDate (some s) duration ghw required optional busy now nds date,
      ∀ a ∈ slot.attendees,
        (a.type = AttendeeType.required → a.available = true) ∧
        (a.type = AttendeeType.optional →
          a.available = ! hasConflict slot.start slot.«end» (busy a.email))) := by
  refine ⟨?_, ?_, ?_⟩
  · intro slot hmem m hm
    simp only [generateSlotsForDate] at hmem
    rcases hw : (ghw date).start with _ | ⟨sh, sm⟩ <;> rw [hw] at hmem
    · simp at hmem
    rcases hwe : (ghw date).«end» with _ | ⟨eh, em⟩ <;> rw [hwe] at hmem
    · simp at hmem
    have hall := (slotLoop_mem _ _ _ _ _ _ _ _ hmem).2.2.1
    have := List.all_eq_true.mp hall m hm
    simpa using this
  · simp only [generateSlotsForDate]
    rcases hw : (ghw date).start with _ | ⟨sh, sm⟩
    · rfl
    rcases hwe : (ghw date).«end» with _ | ⟨eh, em⟩
    · rfl
    exact slotLoop_map_pair _ _ _ _ _ _ _ _
  · intro slot hmem a ha
    simp only [generateSlotsForDate] at hmem
    rcases hw : (ghw date).start with _ | ⟨sh, sm⟩ <;> rw [hw] at hmem
    · simp at hmem
    rcases hwe : (ghw date).«end» with _ | ⟨eh, em⟩ <;> rw [hwe] at hmem
    · simp at hmem
    have hshape := (slotLoop_mem _ _ _ _ _ _ _ _ hmem).2.2.2
    rw [hshape] at ha
    simp only [mkCandidate, List.mem_append, List.mem_map] at ha
    rcases ha with ⟨m, _, rfl⟩ | ⟨m, hm, rfl⟩
    · exact ⟨fun _ => rfl, fun hcontra => by simp at hcontra⟩
    · refine ⟨fun hcontra => by simp at hcontra, fun _ => ?_⟩
      exact contains_filter_map_email optional
        (fun e => ! hasConflict slot.start slot.«end» (busy e)) m.email ⟨m, hm, rfl⟩

/-- Claim C5: under a validated (nonzero) duration, every emitted slot
lasts exactly duration minutes and never extends past the resolved
working-hours window end. -/
theorem slot_duration_and_window (s : SchedulingWindowSettings) (duration : Nat)
    (ghw : Int → WorkingHours) (required optional : List Member)
    (busy : String → List BusySlot) (now nds date : Int) (sh sm eh em : Nat)
    (hdur : duration ≠ 0)
    (hs : (ghw date).start = some (sh, sm)) (he : (ghw date).«end» = some (eh, em)) :
    ∀ slot ∈ generateSlotsForDate (some s) duration ghw required optional busy now nds date,
      slot.«end» - slot.start = (duration : Int) * 60000 ∧
      slot.«end» ≤ date + ((eh : Int) * 3600000 + (em : Int) * 60000) := by
  intro slot hmem
  simp only [generateSlotsForDate, hs, he, if_neg hdur] at hmem
  have hprops := slotLoop_mem _ _ _ _ _ _ _ _ hmem
  exact ⟨by omega, hprops.2.1⟩

/-- Witness for C5 at the first 09:00-10:00 slot of a 09:00-12:00 day. -/
theorem slot_duration_and_window_witness :
    ({ start := 32400000, «end» := 36000000,
       attendees := [{ name := "Ana", email := "ana@e3.com",
                       type := AttendeeType.required, available := true }] } : TimeSlot).«end»
        - ({ start := 32400000, «end» := 36000000,
             attendees := [{ name := "Ana", email := "ana@e3.com",
                             type := AttendeeType.required, available := true }] } : TimeSlot).start
      = (60 : Int) * 60000 ∧
    ({ start := 32400000, «end» := 36000000,
       attendees := [{ name := "Ana", email := "ana@e3.com",
                       type := AttendeeType.required, available := true }] } : TimeSlot).«end»
      ≤ 0 + ((12 : Int) * 3600000 + (0 : Int) * 60000) :=
  slot_duration_and_window defaultSettings 60 officeHours [ana] [] noBusy 0 0 0 9 0 12 0
    (by decide) rfl rfl _ (by decide)

/-- Witness for C2: scenario D — Ana required and free, Bob optional
and busy all day; the 09:00-10:00 slot is still emitted and Bob is
annotated unavailable. -/
theorem required_unanimous_optional_annotate_witness :
    hasConflict 32400000 36000000 (busyBob "ana@e3.com") = false ∧
    ({ name := "Bob", email := "bob@e3.com", type := AttendeeType.optional,
       available := false } : Attendee).available
      = ! hasConflict 32400000 36000000 (busyBob "bob@e3.com") := by
  have h := required_unanimous_optional_annotate defaultSettings 60 officeHours [ana] [bob] []
    busyBob 0 0 0
  refine ⟨?_, ?_⟩
  · exact h.1
      { start := 32400000, «end» := 36000000,
        attendees := [{ name := "Ana", email := "ana@e3.com",
                        type := AttendeeType.required, available := true },
                      { name := "Bob", email := "bob@e3.com",
                        type := AttendeeType.optional, available := false }] }
      (by decide) ana (by decide)
  · exact (h.2.2
      { start := 32400000, «end» := 36000000,
        attendees := [{ name := "Ana", email := "ana@e3.com",
                        type := AttendeeType.required, available := true },
                      { name := "Bob", email := "bob@e3.com",
                        type := AttendeeType.optional, available := false }] }
      (by decide)
      { name := "Bob", email := "bob@e3.com", type := AttendeeType.optional,
        available := false }
      (by decide)).2 rfl

/-- Claim C10: with the silently-defaulted duration (zero replaced by
60) the step is at least one minute, so the loop result is already
stable at fuel (workingEnd - t).toNat + 1 — the while loop terminates
after finitely many iterations — and a zero duration generates exactly
the slots of a 60-minute duration. -/
theorem slot_loop_terminates (required optional : List Member) (busy : String → List BusySlot)
    (duration : Nat) (workingEnd t : Int) (fuel : Nat)
    (hfuel : (workingEnd - t).toNat + 1 ≤ fuel) :
    slotLoop required optional busy (if duration = 0 then 60 else duration) workingEnd fuel t
      = slotLoop required optional busy (if duration = 0 then 60 else duration) workingEnd
          ((workingEnd - t).toNat + 1) t ∧
    (∀ (s : SchedulingWindowSettings) (ghw : Int → WorkingHours)
        (required2 optional2 : List Member) (busy2 : String → List BusySlot) (now nds date : Int),
      generateSlotsForDate (some s) 0 ghw required2 optional2 busy2 now nds date
        = generateSlotsForDate (some s) 60 ghw required2 optional2 busy2 now nds date) := by
  constructor
  · exact slotLoop_fuel_agree required optional busy _ workingEnd
      (by split <;> omega) fuel _ t hfuel (le_refl _)
  · intro s ghw required2 optional2 busy2 now nds date
    rfl

/-- Witness for C10 at concrete fuel values. -/
theorem slot_loop_terminates_witness :
    slotLoop [] [] noBusy (if (60 : Nat) = 0 then 60 else 60) 0 5 0
      = slotLoop [] [] noBusy (if (60 : Nat) = 0 then 60 else 60) 0 1 0 :=
  (slot_loop_terminates [] [] noBusy 60 0 0 5 (by decide)).1

/-- A digest iteration for a different day leaves the map unchanged at
the observed day. -/
theorem digestStep_ne (g : Int → List TimeSlot) (now nds : Int) (m : Int → List String)
    (a d : Int) (h : a ≠ d) : digestStep g now nds m a d = m d := by
  simp only [digestStep]
  by_cases hc : a = nds ∨ a > now
  · rw [if_pos hc]
    by_cases hu : (unionAvailable (g a)).isEmpty
    · rw [if_pos hu]
    · rw [if_neg hu]
      exact if_neg (fun hda => h hda.symm)
  · rw [if_neg hc]

/-- Folding the digest over any day list keeps the value at each day
either the default empty set or the union for that day. -/
theorem foldl_digestStep_point (g : Int → List TimeSlot) (now nds d : Int) :
    ∀ (days : List Int) (m : Int → List String),
      (m d = [] ∨ m d = unionAvailable (g d)) →
      ((days.foldl (digestStep g now nds) m) d = [] ∨
        (days.foldl (digestStep g now nds) m) d = unionAvailable (g d)) := by
  intro days
  induction days with
  | nil => intro m h; exact h
  | cons a rest ih =>
    intro m h
    apply ih
    by_cases ha : a = d
    · subst ha
      simp only [digestStep]
      by_cases hc : a = nds ∨ a > now
      · rw [if_pos hc]
        by_cases hu : (unionAvailable (g a)).isEmpty
        · rw [if_pos hu]; exact h
        · rw [if_neg hu]; simp
      · rw [if_neg hc]; exact h
    · rw [digestStep_ne g now nds m a d ha]; exact h

/-- Once the observed day holds its union value, later digest
iterations keep it. -/
theorem foldl_digestStep_stable (g : Int → List TimeSlot) (now nds d : Int) :
    ∀ (days : List Int) (m : Int → List String),
      m d = unionAvailable (g d) →
      (days.foldl (digestStep g now nds) m) d = unionAvailable (g d) := by
  intro days
  induction days with
  | nil => intro m h; exact h
  | cons a rest ih =>
    intro m h
    apply ih
    by_cases ha : a = d
    · subst ha
      simp only [digestStep]
      by_cases hc : a = nds ∨ a > now
      · rw [if_pos hc]
        by_cases hu : (unionAvailable (g a)).isEmpty
        · rw [if_pos hu]; exact h
        · rw [if_neg hu]; simp
      · rw [if_neg hc]; exact h
    · rw [digestStep_ne g now nds m a d ha]; exact h

/-- After folding over a day list containing the observed eligible day,
the digest holds exactly the union for that day. -/
theorem foldl_digestStep_mem (g : Int → List TimeSlot) (now nds d : Int) :
    ∀ (days : List Int) (m : Int → List String),
      (m d = [] ∨ m d = unionAvailable (g d)) → d ∈ days → (d = nds ∨ d > now) →
      (days.foldl (digestStep g now nds) m) d = unionAvailable (g d) := by
  intro days
  induction days with
  | nil => intro m _ hd _; simp at hd
  | cons a rest ih =>
    intro m hinv hd hcond
    by_cases ha : a = d
    · subst ha
      have hstep : (digestStep g now nds m a) a = unionAvailable (g a) := by
        simp only [digestStep]
        rw [if_pos hcond]
        by_cases hu : (unionAvailable (g a)).isEmpty
        · rw [if_pos hu]
          have hu2 : unionAvailable (g a) = [] := by simpa using hu
          rcases hinv with h | h
          · rw [h, hu2]
          · exact h
        · rw [if_neg hu]; simp
      exact foldl_digestStep_stable g now nds a rest _ hstep
    · have hdrest : d ∈ rest := by
        rcases List.mem_cons.mp hd with h | h
        · exact absurd h.symm ha
        · exact h
      apply ih
      · rw [digestStep_ne g now nds m a d ha]; exact hinv
      · exact hdrest
      · exact hcond

/-- Counterexample to claim C3 as stated: with an empty required set
(and a nonempty optional set) the digest is forced empty by the guard
while the slot generator still reports an available optional member,
so the claimed per-day equality fails. -/
theorem digest_union_mismatch :
    dailyAvailabilityMap (some defaultSettings) 60 officeHours [] [bob] noBusy 0 0 [0] 0
      ≠ unionAvailable (generateSlotsForDate (some defaultSettings) 60 officeHours [] [bob]
          noBusy 0 0 0) := by
  decide

/-- Claim C3 (amended): provided at least one required member is
selected and the scheduling settings are loaded, the digest entry of
every visible day on/after the current day equals the union of the
available attendee ids over the slots generated for that day by the
very same generator. -/
theorem digest_eq_union_of_required_nonempty (s : SchedulingWindowSettings) (duration : Nat)
    (ghw : Int → WorkingHours) (required optional : List Member)
    (busy : String → List BusySlot) (now nds : Int) (days : List Int) (d : Int)
    (hreq : required ≠ []) (hd : d ∈ days) (hcond : d = nds ∨ d > now) :
    dailyAvailabilityMap (some s) duration ghw required optional busy now nds days d
      = unionAvailable (generateSlotsForDate (some s) duration ghw required optional busy
          now nds d) := by
  have hne : required.isEmpty = false := by
    cases required
    · exact absurd rfl hreq
    · rfl
  simp only [dailyAvailabilityMap, hne, Option.isNone_some, Bool.or_self, Bool.false_or,
    if_neg, Bool.false_eq_true, not_false_eq_true]
  exact foldl_digestStep_mem _ now nds d days _ (Or.inl rfl) hd hcond

/-- Witness for the amended C3 on a concrete day with one required
member. -/
theorem digest_eq_union_of_required_nonempty_witness :
    dailyAvailabilityMap (some defaultSettings) 60 officeHours [ana] [] noBusy 0 0 [0] 0
      = unionAvailable (generateSlotsForDate (some defaultSettings) 60 officeHours [ana] []
          noBusy 0 0 0) :=
  digest_eq_union_of_required_nonempty defaultSettings 60 officeHours [ana] [] noBusy 0 0 [0] 0
    (by decide) (by decide) (Or.inl rfl)

/-- Claim C8: a date whose working-hours resolution has no start or no
end time yields no slots — a legitimate closed day, not an error — and
contributes the empty set to the monthly digest. -/
theorem closed_day_empty (s : SchedulingWindowSettings) (duration : Nat)
    (ghw : Int → WorkingHours) (required optional : List Member)
    (busy : String → List BusySlot) (now nds : Int) (days : List Int) (date : Int)
    (h : (ghw date).start = none ∨ (ghw date).«end» = none) :
    generateSlotsForDate (some s) duration ghw required optional busy now nds date = [] ∧
    dailyAvailabilityMap (some s) duration ghw required optional busy now nds days date = [] := by
  have hgen : generateSlotsForDate (some s) duration ghw required optional busy now nds date
      = [] := by
    rcases hs : (ghw date).start with _ | ⟨sh, sm⟩
    · simp [generateSlotsForDate, hs]
    · rcases he : (ghw date).«end» with _ | ⟨eh, em⟩
      · simp [generateSlotsForDate, hs, he]
      · rw [hs] at h; rw [he] at h
        rcases h with h | h <;> simp at h
  refine ⟨hgen, ?_⟩
  by_cases hguard : (required.isEmpty || (some s : Option SchedulingWindowSettings).isNone) = true
  · have hreq : required = [] := by simpa using hguard
    simp [dailyAvailabilityMap, hreq]
  · simp only [dailyAvailabilityMap]
    rw [if_neg hguard]
    have hpoint := foldl_digestStep_point
      (fun day => generateSlotsForDate (some s) duration ghw required optional busy now nds day)
      now nds date days (fun _ => []) (Or.inl rfl)
    rcases hpoint with h1 | h1
    · exact h1
    · rw [h1]
      simp only
      rw [hgen]
      rfl

/-- Witness for C8 on a resolver that closes every day. -/
theorem closed_day_empty_witness :
    generateSlotsForDate (some defaultSettings) 60 closedDay [ana] [] noBusy 0 0 0 = [] ∧
    dailyAvailabilityMap (some defaultSettings) 60 closedDay [ana] [] noBusy 0 0 [0] 0 = [] :=
  closed_day_empty defaultSettings 60 closedDay [ana] [] noBusy 0 0 [0] 0 (Or.inl rfl)

/-- Pointwise reading of the roster disjointness invariant. -/
theorem RosterDisjoint_iff (st : RosterState) :
    RosterDisjoint st ↔ ∀ x, x ∈ st.requiredMembers → x ∉ st.optionalMembers := by
  unfold RosterDisjoint
  constructor
  · intro h x hr ho
    have hx : x ∈ st.requiredMembers ∩ st.optionalMembers := Finset.mem_inter.mpr ⟨hr, ho⟩
    rw [h] at hx
    exact absurd hx (Finset.not_mem_empty x)
  · intro h
    apply Finset.eq_empty_iff_forall_not_mem.mpr
    intro x hx
    have hx2 := Finset.mem_inter.mp hx
    exact h x hx2.1 hx2.2

/-- Characterisation of the classification function by set membership. -/
theorem classify_mem (st : RosterState) (id : String) :
    (classify st id = Zone.required ↔ id ∈ st.requiredMembers) ∧
    (classify st id = Zone.optional ↔ id ∉ st.requiredMembers ∧ id ∈ st.optionalMembers) ∧
    (classify st id = Zone.pool ↔ id ∉ st.requiredMembers ∧ id ∉ st.optionalMembers) := by
  unfold classify
  by_cases h1 : id ∈ st.requiredMembers
  · simp [h1]
  · by_cases h2 : id ∈ st.optionalMembers
    · simp [h1, h2]
    · simp [h1, h2]

/-- The drag-drop move preserves disjointness of the explicit sets. -/
theorem disjoint_handleDrop (st : RosterState) (id : String) (z : Zone)
    (h : RosterDisjoint st) : RosterDisjoint (handleDrop st id z) := by
  rw [RosterDisjoint_iff] at h ⊢
  intro x hxr hxo
  simp only [handleDrop] at hxr hxo
  by_cases hfz : classify st id = z
  · rw [if_pos hfz] at hxr hxo
    exact h x hxr hxo
  · rw [if_neg hfz] at hxr hxo
    rcases hcl : classify st id with _ | _ | _ <;> rw [hcl] at hxr hxo hfz
    · cases z with
      | required => exact absurd rfl hfz
      | optional =>
        have hr : x ∈ st.requiredMembers.erase id := hxr
        have ho : x ∈ insert id st.optionalMembers := hxo
        have h1 := Finset.mem_erase.mp hr
        rcases Finset.mem_insert.mp ho with rfl | h2
        · exact h1.1 rfl
        · exact h x h1.2 h2
      | pool =>
        have hr : x ∈ st.requiredMembers.erase id := hxr
        have ho : x ∈ st.optionalMembers := hxo
        exact h x (Finset.mem_erase.mp hr).2 ho
    · cases z with
      | required =>
        have hr : x ∈ insert id st.requiredMembers := hxr
        have ho : x ∈ st.optionalMembers.erase id := hxo
        have h1 := Finset.mem_erase.mp ho
        rcases Finset.mem_insert.mp hr with rfl | h2
        · exact h1.1 rfl
        · exact h x h2 h1.2
      | optional => exact absurd rfl hfz
      | pool =>
        have hr : x ∈ st.requiredMembers := hxr
        have ho : x ∈ st.optionalMembers.erase id := hxo
        exact h x hr (Finset.mem_erase.mp ho).2
    · have hcm := (classify_mem st id).2.2.mp hcl
      cases z with
      | required =>
        have hr : x ∈ insert id st.requiredMembers := hxr
        have ho : x ∈ st.optionalMembers := hxo
        rcases Finset.mem_insert.mp hr with rfl | h2
        · exact hcm.2 ho
        · exact h x h2 ho
      | optional =>
        have hr : x ∈ st.requiredMembers := hxr
        have ho : x ∈ insert id st.optionalMembers := hxo
        rcases Finset.mem_insert.mp ho with rfl | h2
        · exact hcm.1 hr
        · exact h x hr h2
      | pool => exact absurd rfl hfz

/-- Ids inserted by the URL-seeding fold for the optional set are never
in the given required set. -/
theorem seed_opt_not_mem (l : List String) :
    ∀ (acc R : Finset String), (∀ x ∈ acc, x ∉ R) →
      ∀ x ∈ l.foldl (fun s i => if i ∈ R then s else insert i s) acc, x ∉ R := by
  induction l with
  | nil => intro acc R hacc x hx; exact hacc x hx
  | cons a rest ih =>
    intro acc R hacc x hx
    simp only [List.foldl_cons] at hx
    refine ih _ R ?_ x hx
    intro y hy
    by_cases ha : a ∈ R
    · rw [if_pos ha] at hy
      exact hacc y hy
    · rw [if_neg ha] at hy
      rcases Finset.mem_insert.mp hy with rfl | hy2
      · exact ha
      · exact hacc y hy2

/-- Every single roster operation preserves disjointness. -/
theorem disjoint_applyOp (st : RosterState) (op : RosterOp) (h : RosterDisjoint st) :
    RosterDisjoint (applyOp st op) := by
  cases op with
  | drop id z => exact disjoint_handleDrop st id z h
  | remove id =>
    rw [RosterDisjoint_iff] at h ⊢
    intro x hxr hxo
    simp only [applyOp, removeMember, Finset.mem_erase] at hxr hxo
    exact h x hxr.2 hxo.2
  | clear s =>
    rw [RosterDisjoint_iff] at h ⊢
    intro x hxr hxo
    cases s <;> simp only [applyOp, clearSection] at hxr hxo
    · exact absurd hxr (Finset.not_mem_empty x)
    · exact absurd hxo (Finset.not_mem_empty x)
  | selectAll visible =>
    rw [RosterDisjoint_iff]
    intro x _ hxo
    exact absurd hxo (Finset.not_mem_empty x)
  | seed reqIds optIds =>
    rw [RosterDisjoint_iff]
    intro x hxr hxo
    exact seed_opt_not_mem optIds ∅ _ (by simp) x hxo hxr

/-- Disjointness is preserved by any operation sequence. -/
theorem disjoint_applyOps (st : RosterState) (ops : List RosterOp) (h : RosterDisjoint st) :
    RosterDisjoint (applyOps st ops) := by
  induction ops generalizing st with
  | nil => exact h
  | cons op rest ih => exact ih (applyOp st op) (disjoint_applyOp st op h)

/-- A disjoint roster partitions the connected population: each
connected id is in exactly one of required, optional, implicit pool. -/
theorem partition_of_disjoint (connected : List String) (st : RosterState)
    (h : RosterDisjoint st) :
    ∀ id ∈ connected,
      (id ∈ st.requiredMembers ∨ id ∈ st.optionalMembers ∨ id ∈ poolOf connected st) ∧
      ¬(id ∈ st.requiredMembers ∧ id ∈ st.optionalMembers) ∧
      ¬(id ∈ st.requiredMembers ∧ id ∈ poolOf connected st) ∧
      ¬(id ∈ st.optionalMembers ∧ id ∈ poolOf connected st) := by
  rw [RosterDisjoint_iff] at h
  intro id hid
  have hpool : id ∈ poolOf connected st ↔
      ¬(id ∈ st.requiredMembers ∨ id ∈ st.optionalMembers) := by
    simp [poolOf, List.mem_filter, hid]
  refine ⟨?_, fun hc => h id hc.1 hc.2, fun hc => (hpool.mp hc.2) (Or.inl hc.1),
    fun hc => (hpool.mp hc.2) (Or.inr hc.1)⟩
  by_cases h1 : id ∈ st.requiredMembers
  · exact Or.inl h1
  by_cases h2 : id ∈ st.optionalMembers
  · exact Or.inr (Or.inl h2)
  · exact Or.inr (Or.inr (hpool.mpr (by tauto)))

/-- Claim C6: starting from a disjoint roster, any sequence of the
reachable roster operations (drag-drop move, remove, clear-section,
select-all, URL seeding) keeps the required and optional sets
disjoint, and every connected attendee ends in exactly one of
required, optional, or the implicit pool. -/
theorem roster_partition_invariant (st : RosterState) (ops : List RosterOp)
    (connected : List String) (h : RosterDisjoint st) :
    RosterDisjoint (applyOps st ops) ∧
    ∀ id ∈ connected,
      (id ∈ (applyOps st ops).requiredMembers ∨ id ∈ (applyOps st ops).optionalMembers ∨
        id ∈ poolOf connected (applyOps st ops)) ∧
      ¬(id ∈ (applyOps st ops).requiredMembers ∧ id ∈ (applyOps st ops).optionalMembers) ∧
      ¬(id ∈ (applyOps st ops).requiredMembers ∧ id ∈ poolOf connected (applyOps st ops)) ∧
      ¬(id ∈ (applyOps st ops).optionalMembers ∧ id ∈ poolOf connected (applyOps st ops)) := by
  have hd := disjoint_applyOps st ops h
  exact ⟨hd, partition_of_disjoint connected _ hd⟩

/-- Witness for C6: select-all then a drag of one member to optional,
starting from the empty roster. -/
theorem roster_partition_invariant_witness :
    RosterDisjoint (applyOps { requiredMembers := ∅, optionalMembers := ∅ }
      [RosterOp.selectAll ["a", "b"], RosterOp.drop "a" Zone.optional]) :=
  (roster_partition_invariant { requiredMembers := ∅, optionalMembers := ∅ }
    [RosterOp.selectAll ["a", "b"], RosterOp.drop "a" Zone.optional] ["a", "b"]
    (by decide)).1

/-- Claim C7 evidence: on a failed busy-schedule fetch the handler
adopts the empty busy map without crashing and every conflict test
over the resulting map is false (fail-open), but no error flag is
raised — the failure is silently swallowed — and the selected-day
effect even clears the slot list that the generator would have
produced under the empty busy map. -/
theorem fetch_failure_fail_open_but_silent :
    loadMonthlyAvailability ["ana@e3.com"] (Except.error ("network")) = ([], none) ∧
    (∀ (slotStart slotEnd : Int) (email : String),
      hasConflict slotStart slotEnd
        (busyLookup (loadMonthlyAvailability ["ana@e3.com"] (Except.error ("network"))).1 email)
        = false) ∧
    generateSlotsForDate (some defaultSettings) 60 officeHours [ana] []
        (busyLookup (loadMonthlyAvailability ["ana@e3.com"] (Except.error ("network"))).1)
        0 0 0 ≠ [] ∧
    availableSlotsEffect (some 0)
        (loadMonthlyAvailability ["ana@e3.com"] (Except.error ("network"))).1
        (fun d => generateSlotsForDate (some defaultSettings) 60 officeHours [ana] []
          (busyLookup (loadMonthlyAvailability ["ana@e3.com"] (Except.error ("network"))).1)
          0 0 d) = [] := by
  refine ⟨rfl, ?_, by decide, rfl⟩
  intro slotStart slotEnd email
  rfl

end E3Connect
